/-
Verification of helper functions of the addons_daily metrics pipeline
(`addons_daily/utils/helpers.py`) against its design specification.

Python values are embedded shallowly:
  * Python strings are `List Char` where character-level indexing matters
    (histogram bucket labels, `str_to_list`), `String` otherwise;
  * Python dicts that are iterated in insertion order are association
    lists `List (key × value)`;
  * a Python function that can raise returns `Except String _` or
    `Option _` (with `Except.error` / `none` modelling the raised
    exception);
  * Python's true division of ints is exact rational division `ℚ`.
-/
import Mathlib

set_option maxHeartbeats 1000000

namespace AddonsDaily

/-! ## Embedding of Python `int(...)` on strings

Models the builtin `int(k)` applied to a bucket-label string: an optional
sign followed by a non-empty run of decimal digits parses to the denoted
integer, anything else raises `ValueError` (modelled as `none`).
(Surrounding whitespace and underscore separators, which CPython also
accepts, do not occur in histogram bucket labels and are not modelled.) -/

/-- Value of a non-empty all-digit character run, `none` otherwise. -/
def digitsVal (cs : List Char) : Option Nat :=
  if cs ≠ [] ∧ cs.all (fun c => c.isDigit)
  then some (cs.foldl (fun acc c => acc * 10 + (c.toNat - ('0').toNat)) 0)
  else none

/-- Models Python `int(s)` for a string `s`: `some` of the parsed integer,
`none` when `int` would raise `ValueError`. -/
def pyParseInt (s : List Char) : Option Int :=
  match s with
  | '-' :: cs => (digitsVal cs).map (fun n => -(n : Int))
  | '+' :: cs => (digitsVal cs).map (fun n => (n : Int))
  | cs => (digitsVal cs).map (fun n => (n : Int))

/-! ## `histogram_mean` (helpers.py lines 105-121) -/

/-- The accumulation loop of `histogram_mean`: iterates the dict items in
order, keeping `(numerator, denominator)`; `int(k)` raising on a
non-numeric key aborts the whole loop (`none`). -/
def sumLoop (acc : Int × Int) : List (List Char × Int) → Option (Int × Int)
  | [] => some acc
  | (k, v) :: rest =>
    match pyParseInt k with
    | none => none
    | some ki => sumLoop (acc.1 + ki * v, acc.2 + v) rest

/-- Embedding of `histogram_mean(values)`.  `values = none` models a null
input; the result is `Except.error` when `int(k)` raises, otherwise
`Except.ok none` (Python `None`) or `Except.ok (some q)` with `q` the
exact value of `numerator / float(denominator)`. -/
def histogram_mean (values : Option (List (List Char × Int))) :
    Except String (Option ℚ) :=
  match values with
  | none => Except.ok none
  | some vs =>
    match sumLoop (0, 0) vs with
    | none => Except.error "ValueError: invalid literal for int"
    | some nd =>
      if nd.2 = 0 then Except.ok none
      else Except.ok (some ((nd.1 : ℚ) / (nd.2 : ℚ)))

/-- When every key parses, the loop returns the running sums. -/
theorem sumLoop_eq_some (vs : List (List Char × Int)) :
    ∀ n d : Int, (∀ kv ∈ vs, (pyParseInt kv.1).isSome) →
      sumLoop (n, d) vs =
        some (n + (vs.map (fun kv => ((pyParseInt kv.1).getD 0) * kv.2)).sum,
              d + (vs.map (fun kv => kv.2)).sum) := by
  induction vs with
  | nil => intro n d _; simp [sumLoop]
  | cons kv rest ih =>
    intro n d h
    have hkv : (pyParseInt kv.1).isSome := h kv (List.mem_cons_self kv rest)
    obtain ⟨ki, hki⟩ := Option.isSome_iff_exists.mp hkv
    have hrest : ∀ p ∈ rest, (pyParseInt p.1).isSome :=
      fun p hp => h p (List.mem_cons_of_mem kv hp)
    obtain ⟨k, v⟩ := kv
    simp only [sumLoop, hki]
    rw [ih _ _ hrest]
    simp only [List.map_cons, List.sum_cons, hki, Option.getD_some]
    rw [add_assoc, add_assoc]

/-- A key that fails to parse makes the whole loop fail. -/
theorem sumLoop_eq_none (vs : List (List Char × Int)) :
    ∀ acc : Int × Int, (∃ kv ∈ vs, pyParseInt kv.1 = none) →
      sumLoop acc vs = none := by
  induction vs with
  | nil => intro acc h; simp at h
  | cons kv rest ih =>
    intro acc h
    obtain ⟨p, hp, hnone⟩ := h
    obtain ⟨k, v⟩ := kv
    rcases List.mem_cons.mp hp with heq | hmem
    · subst heq
      simp [sumLoop, hnone]
    · cases hcase : pyParseInt k with
      | none => simp [sumLoop, hcase]
      | some ki =>
        simp only [sumLoop, hcase]
        exact ih _ ⟨p, hmem, hnone⟩

/-- C1: for a histogram whose labels all parse and whose total count is
positive, `histogram_mean` returns exactly
`Σ(label·count) / Σ(count)` (as an exact rational, which is the
floating-point value up to tolerance). -/
theorem histogram_mean_quotient (vs : List (List Char × Int))
    (hparse : vs.all (fun kv => (pyParseInt kv.1).isSome) = true)
    (hpos : 0 < (vs.map (fun kv => kv.2)).sum) :
    histogram_mean (some vs) =
      Except.ok (some
        ((((vs.map (fun kv => ((pyParseInt kv.1).getD 0) * kv.2)).sum : ℤ) : ℚ) /
         (((vs.map (fun kv => kv.2)).sum : ℤ) : ℚ))) := by
  have hparse' : ∀ kv ∈ vs, (pyParseInt kv.1).isSome := by
    intro kv hkv
    exact List.all_eq_true.mp hparse kv hkv
  have hden : (vs.map (fun kv => kv.2)).sum ≠ 0 := ne_of_gt hpos
  simp only [histogram_mean, sumLoop_eq_some vs 0 0 hparse', zero_add]
  rw [if_neg hden]

/-- Witness for C1 on `{"10": 2, "20": 1}`: mean is `40/3`. -/
theorem histogram_mean_quotient_witness :
    ([(['1','0'], (2 : Int)), (['2','0'], 1)].all
        (fun kv => (pyParseInt kv.1).isSome) = true) ∧
    (0 < ([(['1','0'], (2 : Int)), (['2','0'], 1)].map (fun kv => kv.2)).sum) ∧
    histogram_mean (some [(['1','0'], 2), (['2','0'], 1)]) =
      Except.ok (some
        (((([(['1','0'], (2 : Int)), (['2','0'], 1)].map
            (fun kv => ((pyParseInt kv.1).getD 0) * kv.2)).sum : ℤ) : ℚ) /
         ((([(['1','0'], (2 : Int)), (['2','0'], 1)].map
            (fun kv => kv.2)).sum : ℤ) : ℚ))) :=
  ⟨by decide, by decide,
   histogram_mean_quotient [(['1','0'], 2), (['2','0'], 1)]
     (by decide) (by decide)⟩

/-- C2: assuming every bucket label parses (the spec's data-model
invariant that labels are numeric strings), `histogram_mean` returns
Python `None` exactly when the input is null or the sum of counts is 0. -/
theorem histogram_mean_none_iff (values : Option (List (List Char × Int)))
    (hparse : (values.getD []).all (fun kv => (pyParseInt kv.1).isSome) = true) :
    (histogram_mean values = Except.ok none) ↔
      (values = none ∨ ((values.getD []).map (fun kv => kv.2)).sum = 0) := by
  cases values with
  | none => simp [histogram_mean]
  | some vs =>
    have hparse' : ∀ kv ∈ vs, (pyParseInt kv.1).isSome := by
      intro kv hkv
      exact List.all_eq_true.mp hparse kv hkv
    simp only [histogram_mean, sumLoop_eq_some vs 0 0 hparse', zero_add,
      Option.getD_some]
    constructor
    · intro h
      by_cases hz : (vs.map (fun kv => kv.2)).sum = 0
      · exact Or.inr hz
      · rw [if_neg hz] at h
        exact absurd (Except.ok.inj h) (Option.some_ne_none _)
    · intro h
      rcases h with h | h
      · exact absurd h (Option.some_ne_none vs)
      · rw [if_pos h]

/-- Witness for C2 on the distribution `{"10": 0}` (total count 0). -/
theorem histogram_mean_none_iff_witness :
    (((some [(['1','0'], (0 : Int))] : Option (List (List Char × Int))).getD
        []).all (fun kv => (pyParseInt kv.1).isSome) = true) ∧
    ((histogram_mean (some [(['1','0'], (0 : Int))]) = Except.ok none) ↔
      ((some [(['1','0'], (0 : Int))] : Option (List (List Char × Int))) = none ∨
       (((some [(['1','0'], (0 : Int))] : Option (List (List Char × Int))).getD
          []).map (fun kv => kv.2)).sum = 0)) :=
  ⟨by decide, histogram_mean_none_iff (some [(['1','0'], 0)]) (by decide)⟩

/-- C3: a bucket label that does not parse as an integer makes
`histogram_mean` raise (`ValueError` from `int(k)`); it never returns a
value computed from the remaining buckets. -/
theorem histogram_mean_bad_label (vs : List (List Char × Int))
    (hbad : vs.any (fun kv => (pyParseInt kv.1).isNone) = true) :
    histogram_mean (some vs) =
      Except.error "ValueError: invalid literal for int" := by
  obtain ⟨kv, hkv, hnone⟩ := List.any_eq_true.mp hbad
  have hloop : sumLoop (0, 0) vs = none :=
    sumLoop_eq_none vs (0, 0) ⟨kv, hkv, Option.isNone_iff_eq_none.mp hnone⟩
  simp only [histogram_mean]
  rw [hloop]

/-- Witness for C3 on the distribution `{"x": 1}`. -/
theorem histogram_mean_bad_label_witness :
    ([(['x'], (1 : Int))].any (fun kv => (pyParseInt kv.1).isNone) = true) ∧
    histogram_mean (some [(['x'], (1 : Int))]) =
      Except.error "ValueError: invalid literal for int" :=
  ⟨by decide, histogram_mean_bad_label [(['x'], 1)] (by decide)⟩

/-! ## `take_top_ten` (helpers.py lines 161-170)

Each element of the input is a single-key Python dict
`{other_addon_id: weight}`, embedded as a pair `String × ℤ`
(`list(i.values())[0]` is the second component).  Python's `sorted` with
`key=lambda i: -weight i` is the stable ascending sort by negated weight,
i.e. the stable descending sort by weight; it is embedded as Mathlib's
`List.insertionSort` with the relation `wge` below, which is stable in
the same sense as Python's `sorted`. -/

/-- Relation `wge a b`: `a`'s weight is at least `b`'s; the sort order
produced by `sorted(l, key=lambda i: -list(i.values())[0])`. -/
def wge (a b : String × Int) : Prop := b.2 ≤ a.2

instance : DecidableRel wge := fun a b => Int.decLe b.2 a.2

instance : IsTotal (String × Int) wge := ⟨fun a b => le_total b.2 a.2⟩

instance : IsTrans (String × Int) wge :=
  ⟨fun _ _ _ h1 h2 => le_trans h2 h1⟩

/-- Embedding of `take_top_ten(l)`: sort descending by weight, keep all
if fewer than 10, else the slice `[0:10]`. -/
def take_top_ten (l : List (String × Int)) : List (String × Int) :=
  if l.length < 10 then List.insertionSort wge l
  else (List.insertionSort wge l).take 10

/-- Inserting with `orderedInsert` w.r.t. `wge` puts an element of weight `w` in
front of the existing elements of weight `w`, and does not disturb the
relative order of the others: the `filter` to any fixed weight is
preserved up to consing the new element when its weight matches. -/
theorem filter_orderedInsert_wge (x : String × Int) (w : Int) :
    ∀ l : List (String × Int),
      (List.orderedInsert wge x l).filter (fun p => decide (p.2 = w)) =
        if x.2 = w then x :: l.filter (fun p => decide (p.2 = w))
        else l.filter (fun p => decide (p.2 = w)) := by
  intro l
  induction l with
  | nil =>
    simp only [List.orderedInsert_nil]
    by_cases hx : x.2 = w <;> simp [hx]
  | cons y ys ih =>
    by_cases hins : wge x y
    · rw [List.orderedInsert_of_le _ _ hins]
      by_cases hx : x.2 = w <;> simp [hx, List.filter_cons]
    · have hlt : y.2 > x.2 := by
        simp only [wge, not_le] at hins
        exact hins
      have hstep : List.orderedInsert wge x (y :: ys) =
          y :: List.orderedInsert wge x ys := by
        simp only [List.orderedInsert, if_neg hins]
      rw [hstep]
      by_cases hx : x.2 = w
      · have hy : ¬ (y.2 = w) := by omega
        simp [List.filter_cons, hy, hx, ih]
      · simp only [List.filter_cons, ih, if_neg hx]

/-- Stability of the embedded sort: for every weight `w`, the elements of
weight `w` appear in the sorted output in exactly their input order. -/
theorem insertionSort_wge_stable (w : Int) :
    ∀ l : List (String × Int),
      (List.insertionSort wge l).filter (fun p => decide (p.2 = w)) =
        l.filter (fun p => decide (p.2 = w)) := by
  intro l
  induction l with
  | nil => rfl
  | cons x xs ih =>
    show (List.orderedInsert wge x (List.insertionSort wge xs)).filter _ = _
    rw [filter_orderedInsert_wge, ih]
    by_cases hx : x.2 = w <;> simp [hx, List.filter_cons]

/-- C4: `take_top_ten` is the first `min(len(l), 10)` elements of the
stable descending-by-weight sort of `l`: the output length is
`min(len(l), 10)`, it is a prefix of a sorted permutation of the input,
and ties keep their first-observed order (the filter to each fixed
weight is preserved). -/
theorem take_top_ten_spec (l : List (String × Int)) (w : Int) :
    (take_top_ten l).length = min l.length 10 ∧
    take_top_ten l = (List.insertionSort wge l).take 10 ∧
    (List.insertionSort wge l).Perm l ∧
    List.Sorted wge (List.insertionSort wge l) ∧
    (List.insertionSort wge l).filter (fun p => decide (p.2 = w)) =
      l.filter (fun p => decide (p.2 = w)) := by
  have hlen : (List.insertionSort wge l).length = l.length :=
    List.length_insertionSort wge l
  refine ⟨?_, ?_, List.perm_insertionSort wge l,
    List.sorted_insertionSort wge l, insertionSort_wge_stable w l⟩
  · by_cases h : l.length < 10
    · simp only [take_top_ten, if_pos h, hlen]
      omega
    · simp only [take_top_ten, if_neg h, List.length_take, hlen]
      omega
  · by_cases h : l.length < 10
    · simp only [take_top_ten, if_pos h]
      rw [List.take_of_length_le (by omega)]
    · simp only [take_top_ten, if_neg h]

/-! ## `dataframe_joiner` (helpers.py lines 148-158)

A pyspark dataframe keyed by `addon_id` is embedded as a `DataFrame`:
the non-key column names and the list of rows, each row being the
`addon_id` and the values of the non-key columns (nullable, hence
`Option Int`).  Spark's `left.join(right, on="addon_id", how="left")`
keeps every left row, pairs it with every matching right row (with a
unique key, at most one), and pads with nulls when there is no match. -/

/-- One pyspark dataframe keyed by `addon_id`: `cols` are the non-key
column names, each row is `(addon_id, values of cols)`. -/
structure DataFrame where
  cols : List String
  rows : List (String × List (Option Int))
deriving DecidableEq

/-- An all-null tuple for the given columns. -/
def nullRow (cols : List String) : List (Option Int) :=
  cols.map (fun _ => none)

/-- Embedding of one step `left.join(right, on="addon_id", how="left")`. -/
def joinDF (left right : DataFrame) : DataFrame where
  cols := left.cols ++ right.cols
  rows := left.rows.flatMap (fun lrow =>
    let ms := right.rows.filter (fun rrow => rrow.1 == lrow.1)
    if ms.isEmpty then [(lrow.1, lrow.2 ++ nullRow right.cols)]
    else ms.map (fun rrow => (lrow.1, lrow.2 ++ rrow.2)))

/-- Embedding of `dataframe_joiner(dfs)`: `dfs[0]` raises `IndexError`
on an empty list (`none`); otherwise fold the left joins over the rest. -/
def dataframe_joiner (dfs : List DataFrame) : Option DataFrame :=
  match dfs with
  | [] => none
  | d :: rest => some (rest.foldl joinDF d)

/-- The contribution of table `t` to the output row of add-on `id`:
`t`'s row for `id` when there is one, else nulls for `t`'s columns. -/
def rowFor (t : DataFrame) (id : String) : List (Option Int) :=
  match t.rows.find? (fun r => r.1 == id) with
  | some r => r.2
  | none => nullRow t.cols

/-- With unique keys, filtering rows to one key gives the `find?` result. -/
theorem filter_key_eq_find_toList
    (rs : List (String × List (Option Int))) (id : String)
    (h : (rs.map Prod.fst).Nodup) :
    rs.filter (fun r => r.1 == id) = (rs.find? (fun r => r.1 == id)).toList := by
  induction rs with
  | nil => rfl
  | cons r rs ih =>
    simp only [List.map_cons, List.nodup_cons] at h
    obtain ⟨hnot, hnodup⟩ := h
    by_cases hr : r.1 = id
    · have hb : (r.1 == id) = true := by simp [hr]
      rw [List.filter_cons, List.find?_cons, hb]
      simp only [if_true, Option.toList_some]
      have hempty : rs.filter (fun a => a.1 == id) = [] := by
        rw [List.filter_eq_nil_iff]
        intro a ha hcontra
        have haid : a.1 = id := by simpa using hcontra
        have hmem : a.1 ∈ rs.map Prod.fst := List.mem_map_of_mem Prod.fst ha
        rw [haid, ← hr] at hmem
        exact hnot hmem
      rw [hempty]
    · have hb : (r.1 == id) = false := by simp [hr]
      rw [List.filter_cons, List.find?_cons, hb]
      simp only [Bool.false_eq_true, if_false]
      exact ih hnodup

/-- A `flatMap` whose branches are all singletons is a `map`. -/
theorem flatMap_singleton_eq_map {α β : Type} (f : α → List β) (g : α → β) :
    ∀ l : List α, (∀ a ∈ l, f a = [g a]) → l.flatMap f = l.map g := by
  intro l
  induction l with
  | nil => intro _; rfl
  | cons x xs ih =>
    intro h
    rw [List.flatMap_cons, List.map_cons, h x (List.mem_cons_self x xs),
      ih (fun a ha => h a (List.mem_cons_of_mem x ha))]
    rfl

/-- One left join against a table with unique keys merges, per left row,
that table's matching row or nulls. -/
theorem joinDF_rows (left right : DataFrame)
    (h : (right.rows.map Prod.fst).Nodup) :
    (joinDF left right).rows =
      left.rows.map (fun lrow => (lrow.1, lrow.2 ++ rowFor right lrow.1)) := by
  apply flatMap_singleton_eq_map
  intro lrow _
  have hfilter := filter_key_eq_find_toList right.rows lrow.1 h
  simp only [hfilter, rowFor]
  cases hfind : right.rows.find? (fun r => r.1 == lrow.1) with
  | none => simp
  | some r => simp

/-- Folding left joins over tables with unique keys appends, per driving
row, each table's matching values-or-nulls, and concatenates the column
lists. -/
theorem foldl_joinDF (rest : List DataFrame) :
    ∀ d : DataFrame, (∀ t ∈ rest, (t.rows.map Prod.fst).Nodup) →
      rest.foldl joinDF d =
        ⟨d.cols ++ (rest.map DataFrame.cols).flatten,
         d.rows.map (fun row =>
           (row.1, row.2 ++ (rest.map (fun t => rowFor t row.1)).flatten))⟩ := by
  induction rest with
  | nil =>
    intro d _
    obtain ⟨cols, rows⟩ := d
    simp
  | cons t ts ih =>
    intro d h
    rw [List.foldl_cons,
      ih (joinDF d t) (fun u hu => h u (List.mem_cons_of_mem t hu)),
      joinDF_rows d t (h t (List.mem_cons_self t ts))]
    simp only [DataFrame.mk.injEq, List.map_cons, List.flatten_cons,
      List.map_map]
    constructor
    · show (d.cols ++ t.cols) ++ _ = _
      rw [List.append_assoc]
    · apply List.map_congr_left
      intro row _
      simp [Function.comp, List.append_assoc]

/-- C5: joining a non-empty list of tables, each with unique `addon_id`s,
yields one output row per driving-table row (`id1`, present in the
driving table, appears exactly once), where each subsequent table
contributes its matching row or nulls, and an `addon_id` absent from the
driving table (`id2`) is absent from the output. -/
theorem dataframe_joiner_left_join (d : DataFrame) (rest : List DataFrame)
    (id1 id2 : String)
    (huniq : (d :: rest).all
      (fun t => decide ((t.rows.map Prod.fst).Nodup)) = true)
    (hid1 : (d.rows.map Prod.fst).contains id1 = true)
    (hid2 : (d.rows.map Prod.fst).contains id2 = false) :
    dataframe_joiner (d :: rest) =
      some ⟨d.cols ++ (rest.map DataFrame.cols).flatten,
            d.rows.map (fun row =>
              (row.1, row.2 ++ (rest.map (fun t => rowFor t row.1)).flatten))⟩ ∧
    (((dataframe_joiner (d :: rest)).getD ⟨[], []⟩).rows.map
        Prod.fst).count id1 = 1 ∧
    (((dataframe_joiner (d :: rest)).getD ⟨[], []⟩).rows.map
        Prod.fst).contains id2 = false := by
  have huniq' : ∀ t ∈ (d :: rest), (t.rows.map Prod.fst).Nodup := by
    intro t ht
    have := List.all_eq_true.mp huniq t ht
    exact of_decide_eq_true this
  have hrest : ∀ t ∈ rest, (t.rows.map Prod.fst).Nodup :=
    fun t ht => huniq' t (List.mem_cons_of_mem d ht)
  have hmain : dataframe_joiner (d :: rest) =
      some ⟨d.cols ++ (rest.map DataFrame.cols).flatten,
            d.rows.map (fun row =>
              (row.1, row.2 ++ (rest.map (fun t => rowFor t row.1)).flatten))⟩ := by
    simp only [dataframe_joiner, foldl_joinDF rest d hrest]
  have hids : ((dataframe_joiner (d :: rest)).getD ⟨[], []⟩).rows.map Prod.fst =
      d.rows.map Prod.fst := by
    rw [hmain]
    simp [List.map_map, Function.comp]
  refine ⟨hmain, ?_, ?_⟩
  · rw [hids]
    exact List.count_eq_one_of_mem (huniq' d (List.mem_cons_self d rest))
      (by simpa using hid1)
  · rw [hids, hid2]

/-- Witness for C5 on two concrete two-row tables sharing add-on "y". -/
theorem dataframe_joiner_left_join_witness :
    (([⟨["a1"], [("x", [some 1]), ("y", [some 2])]⟩,
       ⟨["b1"], [("y", [some 3]), ("z", [some 4])]⟩] : List DataFrame).all
      (fun t => decide ((t.rows.map Prod.fst).Nodup)) = true) ∧
    ((DataFrame.mk ["a1"] [("x", [some 1]), ("y", [some 2])]).rows.map
        Prod.fst).contains "x" = true ∧
    ((DataFrame.mk ["a1"] [("x", [some 1]), ("y", [some 2])]).rows.map
        Prod.fst).contains "z" = false ∧
    dataframe_joiner [⟨["a1"], [("x", [some 1]), ("y", [some 2])]⟩,
                      ⟨["b1"], [("y", [some 3]), ("z", [some 4])]⟩] =
      some ⟨["a1", "b1"], [("x", [some 1, none]), ("y", [some 2, some 3])]⟩ ∧
    (((dataframe_joiner [⟨["a1"], [("x", [some 1]), ("y", [some 2])]⟩,
        ⟨["b1"], [("y", [some 3]), ("z", [some 4])]⟩]).getD ⟨[], []⟩).rows.map
        Prod.fst).count "x" = 1 ∧
    (((dataframe_joiner [⟨["a1"], [("x", [some 1]), ("y", [some 2])]⟩,
        ⟨["b1"], [("y", [some 3]), ("z", [some 4])]⟩]).getD ⟨[], []⟩).rows.map
        Prod.fst).contains "z" = false := by
  have h := dataframe_joiner_left_join
    ⟨["a1"], [("x", [some 1]), ("y", [some 2])]⟩
    [⟨["b1"], [("y", [some 3]), ("z", [some 4])]⟩]
    "x" "z" (by decide) (by decide) (by decide)
  refine ⟨by decide, by decide, by decide, ?_, h.2.1, h.2.2⟩
  rw [h.1]
  decide

/-- C6: joining a one-table list returns that table unchanged. -/
theorem dataframe_joiner_singleton (t : DataFrame) :
    dataframe_joiner [t] = some t := rfl

/-! ## Trend Window Engine (spec §4.3)

The implementation (`get_trend_metrics` in
`addons_daily/utils/telemetry_data.py`) is not among the provided source
files — only its test is — so the engine is modelled from the spec. -/

/-- One per-session record as seen by the trend engine: the add-on and
the submission date, a calendar date embedded as a day number `ℤ`. -/
structure TrendRecord where
  addon_id : String
  submission_date : Int
deriving DecidableEq

/-- Per add-on per anchor date: the three optional activity flags. -/
structure TrendWindowFlags where
  dau : Option Nat
  wau : Option Nat
  mau : Option Nat
deriving DecidableEq

/-- Modelled from the spec: `get_trend_metrics` (the Trend Window
Engine's `trend(records, anchor_date)`) is not under the provided
sources.  Per the spec, `dau` is `1` if any record for the add-on has
`submission_date == anchor_date`, else `None`; `wau` likewise over the
inclusive 7-day window `[anchor - 6, anchor]`; `mau` over the inclusive
30-day window `[anchor - 29, anchor]`. -/
def trend (records : List TrendRecord) (anchor : Int) (a : String) :
    TrendWindowFlags where
  dau :=
    if ∃ r ∈ records, r.addon_id = a ∧ r.submission_date = anchor
    then some 1 else none
  wau :=
    if ∃ r ∈ records, r.addon_id = a ∧
        anchor - 6 ≤ r.submission_date ∧ r.submission_date ≤ anchor
    then some 1 else none
  mau :=
    if ∃ r ∈ records, r.addon_id = a ∧
        anchor - 29 ≤ r.submission_date ∧ r.submission_date ≤ anchor
    then some 1 else none

/-- C7: an add-on with exactly one record dated 10 days before the anchor
reports `dau = None`, `wau = None`, `mau = 1`: the three windows are
evaluated independently and inactivity yields `None`, never 0. -/
theorem trend_windows_independent (a : String) (anchor : Int) :
    trend [⟨a, anchor - 10⟩] anchor a =
      ⟨none, none, some 1⟩ := by
  simp only [trend, TrendWindowFlags.mk.injEq]
  refine ⟨?_, ?_, ?_⟩
  · rw [if_neg]
    rintro ⟨r, hr, _, hdate⟩
    simp only [List.mem_singleton] at hr
    subst hr
    simp only at hdate
    omega
  · rw [if_neg]
    rintro ⟨r, hr, _, hlo, _⟩
    simp only [List.mem_singleton] at hr
    subst hr
    simp only at hlo
    omega
  · rw [if_pos]
    exact ⟨⟨a, anchor - 10⟩, List.mem_singleton_self _, rfl,
      by show anchor - 29 ≤ anchor - 10; omega,
      by show anchor - 10 ≤ anchor; omega⟩

/-! ## `list_expander` (helpers.py lines 195-204)

The Python loop appends, for each item, the two-element list
`[item, [i for i in lis if i != item]]`; the typed embedding of that
pair is `item × companion list`. -/

/-- Embedding of `list_expander(lis)`. -/
def list_expander (lis : List String) : List (String × List String) :=
  lis.map (fun item => (item, lis.filter (fun i => i != item)))

/-- C8: `list_expander` yields one entry per input item, where each
item's companion list keeps every other value of the list with its
multiplicity (`count y` unchanged for `y` different from the item) and
never contains the item itself. -/
theorem list_expander_companions (lis : List String)
    (p : String × List String) (hp : p ∈ list_expander lis)
    (y : String) (hy : y ≠ p.1) :
    (list_expander lis).length = lis.length ∧
    p.1 ∈ lis ∧ p.1 ∉ p.2 ∧ p.2.count y = lis.count y := by
  obtain ⟨item, hitem, heq⟩ := List.mem_map.mp hp
  refine ⟨List.length_map lis _, ?_, ?_, ?_⟩
  · rw [← heq]
    exact hitem
  · rw [← heq]
    intro hmem
    have := List.of_mem_filter hmem
    simp at this
  · rw [← heq] at hy ⊢
    simp only at hy ⊢
    rw [List.count_filter (by simp [hy])]

/-- Witness for C8 on `["a", "b"]` and its entry `("a", ["b"])`. -/
theorem list_expander_companions_witness :
    (("a", ["b"]) ∈ list_expander ["a", "b"]) ∧
    ("b" ≠ (("a", ["b"]) : String × List String).1) ∧
    ((list_expander ["a", "b"]).length = (["a", "b"] : List String).length ∧
     (("a", ["b"]) : String × List String).1 ∈ (["a", "b"] : List String) ∧
     (("a", ["b"]) : String × List String).1 ∉
       (("a", ["b"]) : String × List String).2 ∧
     (("a", ["b"]) : String × List String).2.count "b" =
       (["a", "b"] : List String).count "b") :=
  ⟨by decide, by decide,
   list_expander_companions ["a", "b"] ("a", ["b"]) (by decide) "b" (by decide)⟩

/-- C9: exclusion is by value, not by position: when a value occurs at
two or more positions, its companion list contains no occurrence of the
value at all, while the output still has one entry per input position. -/
theorem list_expander_value_exclusion (lis : List String)
    (v : String) (comp : List String)
    (hdup : 2 ≤ lis.count v) (hp : (v, comp) ∈ list_expander lis) :
    comp.count v = 0 ∧ (list_expander lis).length = lis.length := by
  obtain ⟨item, _, heq⟩ := List.mem_map.mp hp
  have hv : item = v := congrArg Prod.fst heq
  have hcomp : comp = lis.filter (fun i => i != item) :=
    (congrArg Prod.snd heq).symm
  subst hv
  refine ⟨?_, List.length_map lis _⟩
  rw [hcomp, List.count_eq_zero]
  intro hmem
  have := List.of_mem_filter hmem
  simp at this

/-- Witness for C9 on `["a", "a", "b"]` and the entry `("a", ["b"])`. -/
theorem list_expander_value_exclusion_witness :
    (2 ≤ (["a", "a", "b"] : List String).count "a") ∧
    (("a", ["b"]) ∈ list_expander ["a", "a", "b"]) ∧
    ((["b"] : List String).count "a" = 0 ∧
     (list_expander ["a", "a", "b"]).length =
       (["a", "a", "b"] : List String).length) :=
  ⟨by decide, by decide,
   list_expander_value_exclusion ["a", "a", "b"] "a" ["b"]
     (by decide) (by decide)⟩

/-! ## `str_to_list` (helpers.py lines 224-233)

The Python string is embedded as `List Char`; `word[0]` and `word[-1]`
on an empty string raise `IndexError`, modelled as `none`. -/

/-- Embedding of Python `s.split(",")` on character lists: splits at
every comma, `[[]]` on the empty string. -/
def splitComma : List Char → List (List Char)
  | [] => [[]]
  | c :: cs =>
    if c = ',' then [] :: splitComma cs
    else
      match splitComma cs with
      | [] => [[c]]
      | h :: t => (c :: h) :: t

/-- Embedding of Python `s.strip()`: drop leading and trailing
whitespace. -/
def pyStrip (s : List Char) : List Char :=
  ((s.dropWhile Char.isWhitespace).reverse.dropWhile Char.isWhitespace).reverse

/-- Embedding of `str_to_list(word)`: strip one leading `[` (IndexError,
i.e. `none`, on the empty string), strip one trailing `]` (IndexError on
what is left of `"["`), split on commas, strip each item. -/
def str_to_list (word : List Char) : Option (List (List Char)) :=
  match word with
  | [] => none
  | c :: cs =>
    let w1 := if c = '[' then cs else c :: cs
    match w1.getLast? with
    | none => none
    | some lastc =>
      let w2 := if lastc = ']' then w1.dropLast else w1
      some ((splitComma w2).map pyStrip)

/-- The total function the spec describes `str_to_list` to compute:
the comma-separated items of the input with the surrounding brackets
and whitespace stripped. -/
def strToListSpec (word : List Char) : List (List Char) :=
  let w1 := if word.head? = some '[' then word.tail else word
  let w2 := if w1.getLast? = some ']' then w1.dropLast else w1
  (splitComma w2).map pyStrip

/-- Counterexample to C10 as stated: the input `"["` is non-empty, yet
`str_to_list` fails on it (the second indexing, `word[-1]`, is applied
to the empty string left after the leading bracket is stripped). -/
theorem str_to_list_nonempty_input_fails :
    (['['] : List Char) ≠ [] ∧ str_to_list ['['] = none := by
  decide

/-- C10 (amended): `str_to_list` fails exactly on `""` (first indexing
out of bounds) and on `"["` (second indexing out of bounds); on every
other input it totally returns the comma-separated items with
surrounding brackets and whitespace stripped. -/
theorem str_to_list_domain (w : List Char)
    (h1 : w ≠ []) (h2 : w ≠ ['[']) :
    str_to_list ([] : List Char) = none ∧
    str_to_list ['['] = none ∧
    str_to_list w = some (strToListSpec w) := by
  refine ⟨rfl, by decide, ?_⟩
  cases w with
  | nil => exact absurd rfl h1
  | cons c cs =>
    by_cases hc : c = '['
    · subst hc
      cases cs with
      | nil => exact absurd rfl h2
      | cons d ds =>
        obtain ⟨lastc, hlast⟩ :
            ∃ x, (d :: ds).getLast? = some x :=
          ⟨(d :: ds).getLast (by simp), List.getLast?_eq_getLast _ _⟩
        simp only [str_to_list, strToListSpec, List.head?_cons, if_pos rfl,
          if_true, List.tail_cons, hlast, Option.some.injEq]
    · obtain ⟨lastc, hlast⟩ :
          ∃ x, (c :: cs).getLast? = some x :=
        ⟨(c :: cs).getLast (by simp), List.getLast?_eq_getLast _ _⟩
      have hch : ¬ ((c :: cs).head? = some '[') := by
        simp only [List.head?_cons, Option.some.injEq]
        exact hc
      simp only [str_to_list, strToListSpec, if_neg hc, if_neg hch, hlast,
        Option.some.injEq]

/-- Witness for amended C10 on the input `"a, b"`. -/
theorem str_to_list_domain_witness :
    ((['a', ',', ' ', 'b'] : List Char) ≠ []) ∧
    ((['a', ',', ' ', 'b'] : List Char) ≠ ['[']) ∧
    (str_to_list ([] : List Char) = none ∧
     str_to_list ['['] = none ∧
     str_to_list ['a', ',', ' ', 'b'] =
       some (strToListSpec ['a', ',', ' ', 'b'])) :=
  ⟨by decide, by decide,
   str_to_list_domain ['a', ',', ' ', 'b'] (by decide) (by decide)⟩

end AddonsDaily
